import Mathlib

/-!
# linear-nim-react: the game reducer

A shallow embedding of `src/reducer/GameReducer.jsx` and of the drivers that
`src/component/Game.jsx` and `src/reducer/GameReducer.test.js` build around it.

Modelling conventions.

* The numeric fields `tokensLeft`, `canTake` and `aiMove` are JavaScript numbers
  holding integers; they are modelled as `Int` (the arithmetic used, `- 1`,
  `Math.min` and `%`, is exact on integers in the safe range).  JavaScript's `%`
  is the truncated remainder, which is `Int.tmod`.
* `winner` is `undefined | boolean`, modelled as `Option Bool`.
* An action is `{ type, payload }`.  The payload of `TAKE_TOKEN` may be missing
  (`undefined`), in which case the destructuring in the parameter list of
  `takeToken` throws a `TypeError`; a thrown exception is the result `none` of
  `reducer`.
* Object identity is not modelled: `return state` and `return {...state}` both
  yield a value equal to `state`.
-/

namespace GameReducer

/-- House rule: the number of tokens at the start of a game. -/
def STARTING_TOTAL : Int := 12

/-- House rule: the most tokens a player may take in one turn. -/
def MAX_TAKEN : Int := 3

/-- The game state object. -/
structure State where
  tokensLeft : Int
  canTake : Int
  aiMove : Int
  playerIsHuman : Bool
  winner : Option Bool
deriving DecidableEq, Repr

/-- The constant `initialState`. -/
def initialState : State :=
  { tokensLeft := STARTING_TOTAL
    canTake := MAX_TAKEN
    aiMove := 0
    playerIsHuman := true
    winner := none }

/-- The payload `{ tokensLeft, canTake }` of a `TAKE_TOKEN` action. -/
structure Payload where
  tokensLeft : Int
  canTake : Int
deriving DecidableEq, Repr

/-- The action objects `{ type, payload }` the reducer is given: the two types
it knows, and any other type string (which falls to the `default` branch). -/
inductive Action where
  | SET_PLAYER_TO_HUMAN (payload : Bool)
  | TAKE_TOKEN (payload : Option Payload)
  | unknown (type : String)
deriving DecidableEq, Repr

/-- The function `setPlayerToHuman(state, playerIsHuman)`. -/
def setPlayerToHuman (state : State) (playerIsHuman : Bool) : State :=
  if playerIsHuman = state.playerIsHuman then
    state
  else
    let aiMove : Int := 0
    let canTake : Int := min MAX_TAKEN state.tokensLeft
    if !playerIsHuman then
      let r : Int := Int.tmod state.tokensLeft (MAX_TAKEN + 1)
      let aiMove : Int := if r = 0 then 1 else r
      let canTake : Int := aiMove
      { state with playerIsHuman := playerIsHuman, canTake := canTake, aiMove := aiMove }
    else
      { state with playerIsHuman := playerIsHuman, canTake := canTake, aiMove := aiMove }

/-- The function `takeToken(state, { tokensLeft, canTake })`, for a payload that
is present. -/
def takeToken (state : State) (payload : Payload) : State :=
  let tokensLeft : Int := payload.tokensLeft - 1
  let canTake : Int := payload.canTake - 1
  let state : State := { state with tokensLeft := tokensLeft, canTake := canTake }
  if canTake = 0 then
    if tokensLeft ≠ 0 then
      let playerIsHuman : Bool := !state.playerIsHuman
      setPlayerToHuman state playerIsHuman
    else
      { state with winner := some state.playerIsHuman }
  else
    state

/-- The function `reducer(state, action)`.  The result `none` stands for the
`TypeError` thrown when `takeToken` destructures a missing payload. -/
def reducer (state : State) (action : Action) : Option State :=
  if state.winner ≠ none then
    some state
  else
    match action with
    | Action.SET_PLAYER_TO_HUMAN payload => some (setPlayerToHuman state payload)
    | Action.TAKE_TOKEN (some payload) => some (takeToken state payload)
    | Action.TAKE_TOKEN none => none
    | Action.unknown _ => some { state with }

/-! ## The callers: `Game.jsx` and the test suite -/

/-- The action `Game.jsx` dispatches from its `takeToken` handler: `TAKE_TOKEN`
with the `tokensLeft` and `canTake` of the state it currently holds. -/
def Game.takeToken (state : State) : Action :=
  Action.TAKE_TOKEN (some { tokensLeft := state.tokensLeft, canTake := state.canTake })

/-- The action `{ type: "SET_PLAYER_TO_HUMAN", payload: false }`, dispatched by
`switchToAI` in `Game.jsx` and named `SWITCH_TO_AI` in the tests. -/
def SWITCH_TO_AI : Action := Action.SET_PLAYER_TO_HUMAN false

/-- The test suite's constant `TAKE_TOKEN = { type: "TAKE_TOKEN" }`, which
carries no payload. -/
def Test.TAKE_TOKEN : Action := Action.TAKE_TOKEN none

/-- The loop `while (tokens--) { state = reducer(state, TAKE_TOKEN) }` of the
tests: exactly `tokens` dispatches.  The `TAKE_TOKEN` action dispatched from a
state is given by `take`. -/
def humanTakes (take : State → Action) : Nat → State → Option State
  | 0, state => some state
  | tokens + 1, state => (reducer state (take state)).bind (humanTakes take tokens)

/-- The loop
`while (!state.playerIsHuman && state.winner === undefined) { state = reducer(state, TAKE_TOKEN) }`
of the tests (the timer of `Game.jsx` plays the same moves).  `fuel` bounds the
number of iterations; `none` means the bound was hit or the reducer threw. -/
def aiPlays (take : State → Action) (fuel : Nat) (state : State) : Option State :=
  if !state.playerIsHuman && state.winner = none then
    match fuel with
    | 0 => none
    | fuel + 1 => (reducer state (take state)).bind (aiPlays take fuel)
  else
    some state

/-- One human turn followed by the AI's answer, as in the body of the loop of the
test "ensure humans can't win if they start first": the human takes `tokens`
tokens, `SWITCH_TO_AI` is dispatched, and the AI plays until the turn passes or
the game is over. -/
def humanThenAI (take : State → Action) (fuel : Nat) (tokens : Nat) (state : State) :
    Option State :=
  ((humanTakes take tokens state).bind (fun s => reducer s SWITCH_TO_AI)).bind
    (aiPlays take fuel)

/-- A game in which the human moves first on every round: while the game is not
over, the human takes `choose turn state` tokens and the AI answers.  `fuel`
bounds the number of rounds and the length of each AI turn. -/
def humanFirstGame (take : State → Action) (choose : Nat → State → Nat) (aiFuel : Nat)
    (fuel turn : Nat) (state : State) : Option State :=
  if state.winner = none then
    match fuel with
    | 0 => none
    | fuel + 1 =>
      (humanThenAI take aiFuel (choose turn state) state).bind
        (humanFirstGame take choose aiFuel fuel (turn + 1))
  else
    some state

/-- The array `permutations` of the test "win every time if the human plays
first": the 27 triples of numbers from 1 to 3. -/
def permutations : List (List Nat) :=
  (List.range 27).map fun ii =>
    let a := ii % 3
    let b := (ii - a) / 3 % 3
    let c := ((ii - a - b * 3) / 9) % 3
    [a + 1, b + 1, c + 1]

/-- The loop `while (move-- && state.playerIsHuman) { state = reducer(state, TAKE_TOKEN) }`
of the same test. -/
def humanMove (take : State → Action) : Nat → State → Option State
  | 0, state => some state
  | move + 1, state =>
    if state.playerIsHuman then
      (reducer state (take state)).bind (humanMove take move)
    else
      some state

/-- The call `moves.forEach(move => ...)` of the same test: the human's moves of
one triple, one after the other. -/
def humanMoves (take : State → Action) : List Nat → State → Option State
  | [], state => some state
  | move :: moves, state => (humanMove take move state).bind (humanMoves take moves)

/-- The loop `while (state.winner === undefined) { ... }` of the same test for one
triple `moves`: the human's moves, `SWITCH_TO_AI`, then the AI's moves. -/
def permutationGame (take : State → Action) (moves : List Nat) (aiFuel : Nat)
    (fuel : Nat) (state : State) : Option State :=
  if state.winner = none then
    match fuel with
    | 0 => none
    | fuel + 1 =>
      (((humanMoves take moves state).bind (fun s => reducer s SWITCH_TO_AI)).bind
        (aiPlays take aiFuel)).bind (permutationGame take moves aiFuel fuel)
  else
    some state

/-- The value `permutations.every(...)` of the same test: whether the AI is the
winner of the game of every triple. -/
def aiWinsEveryTime (take : State → Action) (fuel : Nat) : Bool :=
  permutations.all fun moves =>
    match permutationGame take moves fuel fuel { initialState with } with
    | some state => state.winner = some false
    | none => false

/-- The loop
`while (moves-- && state.playerIsHuman && state.winner === undefined) { ... }`
of the test "lose to human if human plays perfectly"; `moves` is a number that
is counted down and stops the loop when it is zero. -/
def perfectMove (take : State → Action) (fuel : Nat) (moves : Int) (state : State) :
    Option State :=
  if moves ≠ 0 ∧ state.playerIsHuman = true ∧ state.winner = none then
    match fuel with
    | 0 => none
    | fuel + 1 => (reducer state (take state)).bind (perfectMove take fuel (moves - 1))
  else
    some state

/-- The outer loop of the test "lose to human if human plays perfectly": the AI
plays as it wishes, then the human takes `(tokensLeft % 4) || 1` tokens. -/
def perfectRounds (take : State → Action) (loopFuel : Nat) (fuel : Nat) (state : State) :
    Option State :=
  if state.winner = none then
    match fuel with
    | 0 => none
    | fuel + 1 =>
      (aiPlays take loopFuel state).bind fun s =>
        let r : Int := Int.tmod s.tokensLeft 4
        let moves : Int := if r = 0 then 1 else r
        (perfectMove take loopFuel moves s).bind (perfectRounds take loopFuel fuel)
  else
    some state

/-- The whole test "lose to human if human plays perfectly": from a copy of
`initialState`, `SWITCH_TO_AI` gets the AI to start, then the rounds are played
until there is a winner. -/
def perfectHumanGame (take : State → Action) (fuel : Nat) : Option State :=
  (reducer { initialState with } SWITCH_TO_AI).bind (perfectRounds take fuel fuel)

/-- What a caller may dispatch during play: `SET_PLAYER_TO_HUMAN` with either
boolean, or `TAKE_TOKEN` with the payload read from the current state. -/
inductive Move where
  | setPlayer (playerIsHuman : Bool)
  | take
deriving DecidableEq, Repr

/-- The action a move stands for in a given state. -/
def Move.action (state : State) : Move → Action
  | Move.setPlayer playerIsHuman => Action.SET_PLAYER_TO_HUMAN playerIsHuman
  | Move.take => Game.takeToken state

/-- Dispatching a sequence of moves, each state replacing the one before. -/
def play : List Move → State → Option State
  | [], state => some state
  | move :: moves, state => (reducer state (move.action state)).bind (play moves)

/-! ## Predicates on states -/

/-- The bound on `canTake`: at most `min(MAX_TAKEN, tokensLeft)`, and at least 1
while the game is in progress. -/
def CanTakeBounded (state : State) : Prop :=
  state.canTake ≤ min MAX_TAKEN state.tokensLeft ∧ (state.winner = none → 1 ≤ state.canTake)

instance CanTakeBounded.decidable (state : State) : Decidable (CanTakeBounded state) := by
  unfold CanTakeBounded
  infer_instance

/-- The ranges of the data model: `0 ≤ tokensLeft ≤ STARTING_TOTAL`,
`0 ≤ canTake ≤ MAX_TAKEN`, `0 ≤ aiMove ≤ MAX_TAKEN`, and `aiMove = 0` while the
human is the active player. -/
def WellFormed (state : State) : Prop :=
  (0 ≤ state.tokensLeft ∧ state.tokensLeft ≤ STARTING_TOTAL)
  ∧ (0 ≤ state.canTake ∧ state.canTake ≤ MAX_TAKEN)
  ∧ (0 ≤ state.aiMove ∧ state.aiMove ≤ MAX_TAKEN)
  ∧ (state.playerIsHuman = true → state.aiMove = 0)

instance WellFormed.decidable (state : State) : Decidable (WellFormed state) := by
  unfold WellFormed
  infer_instance

/-- The game is over exactly when no token is left. -/
def WinnerIffEmpty (state : State) : Prop :=
  state.winner ≠ none ↔ state.tokensLeft = 0

instance WinnerIffEmpty.decidable (state : State) : Decidable (WinnerIffEmpty state) := by
  unfold WinnerIffEmpty
  infer_instance

/-- What play keeps true of the state: the three properties above together. -/
def PlayInvariant (state : State) : Prop :=
  CanTakeBounded state ∧ WellFormed state ∧ WinnerIffEmpty state

instance PlayInvariant.decidable (state : State) : Decidable (PlayInvariant state) := by
  unfold PlayInvariant
  infer_instance

/-- The number of tokens a move removes from the pool in a given state: one for
a `TAKE_TOKEN` while the game is in progress, none otherwise. -/
def Move.tokens (state : State) (move : Move) : Int :=
  if move = Move.take ∧ state.winner = none then 1 else 0

/-! ## Terminal states -/

/-- C1: once `winner` is set (to `true` or to `false`) the reducer returns the
input state, with no field changed, for every action: `SET_PLAYER_TO_HUMAN` with
either boolean, `TAKE_TOKEN` with any payload (or none), or an unknown type;
the other fields of the state are arbitrary. -/
theorem reducer_game_over (state : State) (action : Action)
    (hwin : state.winner ≠ none) : reducer state action = some state := by
  unfold reducer
  rw [if_pos hwin]

/-- C1, at the state `{ winner: true, ... }` with arbitrary other fields and a
`TAKE_TOKEN` action without payload, as the test dispatches it. -/
theorem reducer_game_over_witness :
    (⟨-7, 99, 5, false, some true⟩ : State).winner ≠ none ∧
    reducer ⟨-7, 99, 5, false, some true⟩ (Action.TAKE_TOKEN none)
      = some ⟨-7, 99, 5, false, some true⟩ :=
  ⟨by decide, reducer_game_over ⟨-7, 99, 5, false, some true⟩ (Action.TAKE_TOKEN none)
    (by decide)⟩

/-! ## Fuel -/

/-- More fuel does not change the outcome of an AI turn that finished. -/
theorem aiPlays_add (take : State → Action) (extra : Nat) :
    ∀ (fuel : Nat) (s t : State), aiPlays take fuel s = some t →
      aiPlays take (fuel + extra) s = some t := by
  intro fuel
  induction fuel with
  | zero =>
    intro s t h
    unfold aiPlays at h ⊢
    split at h
    · simp at h
    · rename_i hc
      rw [if_neg hc]
      exact h
  | succ n ih =>
    intro s t h
    rw [Nat.add_right_comm]
    unfold aiPlays at h ⊢
    split at h
    · rename_i hc
      rw [if_pos hc]
      simp only [Option.bind_eq_some] at h ⊢
      obtain ⟨s1, h1, h2⟩ := h
      exact ⟨s1, h1, ih s1 t h2⟩
    · rename_i hc
      rw [if_neg hc]
      exact h

/-- An AI turn that finishes within `fuel` steps finishes within any larger bound. -/
theorem aiPlays_mono (take : State → Action) {fuel fuel2 : Nat} (hle : fuel ≤ fuel2)
    {s t : State} (h : aiPlays take fuel s = some t) : aiPlays take fuel2 s = some t := by
  obtain ⟨extra, rfl⟩ := Nat.exists_eq_add_of_le hle
  exact aiPlays_add take extra fuel s t h

/-- A round whose AI turn finishes within 3 steps finishes within any larger bound. -/
theorem humanThenAI_mono (take : State → Action) {fuel fuel2 : Nat} (hle : fuel ≤ fuel2)
    {tokens : Nat} {s t : State} (h : humanThenAI take fuel tokens s = some t) :
    humanThenAI take fuel2 tokens s = some t := by
  unfold humanThenAI at h ⊢
  rw [Option.bind_eq_some] at h ⊢
  obtain ⟨s1, h1, h2⟩ := h
  exact ⟨s1, h1, aiPlays_mono take hle h2⟩

/-- One round of `humanFirstGame` while the game is in progress. -/
theorem humanFirstGame_step (take : State → Action) (choose : Nat → State → Nat)
    (aiFuel fuel turn : Nat) {state next : State} (hw : state.winner = none)
    (h : humanThenAI take aiFuel (choose turn state) state = some next) :
    humanFirstGame take choose aiFuel (fuel + 1) turn state
      = humanFirstGame take choose aiFuel fuel (turn + 1) next := by
  conv_lhs => unfold humanFirstGame
  rw [if_pos hw, h]
  rfl

/-- The loop of `humanFirstGame` stops at once when there is a winner. -/
theorem humanFirstGame_over (take : State → Action) (choose : Nat → State → Nat)
    (aiFuel fuel turn : Nat) {state : State} (hw : state.winner ≠ none) :
    humanFirstGame take choose aiFuel fuel turn state = some state := by
  unfold humanFirstGame
  rw [if_neg hw]

/-- More fuel, for the rounds and for the AI turns, does not change the outcome
of a game of the test "win every time if the human plays first" that finished. -/
theorem permutationGame_add (take : State → Action) (moves : List Nat)
    {aiFuel aiFuel2 : Nat} (hle : aiFuel ≤ aiFuel2) (extra : Nat) :
    ∀ (fuel : Nat) (s t : State), permutationGame take moves aiFuel fuel s = some t →
      permutationGame take moves aiFuel2 (fuel + extra) s = some t := by
  intro fuel
  induction fuel with
  | zero =>
    intro s t h
    unfold permutationGame at h ⊢
    split at h
    · simp at h
    · rename_i hc
      rw [if_neg hc]
      exact h
  | succ n ih =>
    intro s t h
    rw [Nat.add_right_comm]
    unfold permutationGame at h ⊢
    split at h
    · rename_i hc
      rw [if_pos hc]
      simp only [Option.bind_eq_some] at h ⊢
      obtain ⟨s3, ⟨s2, hs2, hs3⟩, h4⟩ := h
      exact ⟨s3, ⟨s2, hs2, aiPlays_mono take hle hs3⟩, ih s3 t h4⟩
    · rename_i hc
      rw [if_neg hc]
      exact h

/-- The verdict `aiWinsEveryTime` reached with some fuel is reached with more. -/
theorem aiWinsEveryTime_mono (take : State → Action) {fuel fuel2 : Nat} (hle : fuel ≤ fuel2)
    (h : aiWinsEveryTime take fuel = true) : aiWinsEveryTime take fuel2 = true := by
  unfold aiWinsEveryTime at h ⊢
  rw [List.all_eq_true] at h ⊢
  intro moves hmem
  have hm := h moves hmem
  obtain ⟨extra, rfl⟩ := Nat.exists_eq_add_of_le hle
  cases hg : permutationGame take moves fuel fuel { initialState with } with
  | none => rw [hg] at hm; simp at hm
  | some st =>
    rw [hg] at hm
    rw [permutationGame_add take moves hle extra fuel _ st hg]
    exact hm

/-- More fuel does not change the outcome of a human move of the test "lose to
human if human plays perfectly" that finished. -/
theorem perfectMove_add (take : State → Action) (extra : Nat) :
    ∀ (fuel : Nat) (moves : Int) (s t : State), perfectMove take fuel moves s = some t →
      perfectMove take (fuel + extra) moves s = some t := by
  intro fuel
  induction fuel with
  | zero =>
    intro moves s t h
    unfold perfectMove at h ⊢
    split at h
    · simp at h
    · rename_i hc
      rw [if_neg hc]
      exact h
  | succ n ih =>
    intro moves s t h
    rw [Nat.add_right_comm]
    unfold perfectMove at h ⊢
    split at h
    · rename_i hc
      rw [if_pos hc]
      simp only [Option.bind_eq_some] at h ⊢
      obtain ⟨s1, h1, h2⟩ := h
      exact ⟨s1, h1, ih (moves - 1) s1 t h2⟩
    · rename_i hc
      rw [if_neg hc]
      exact h

/-- More fuel, for the rounds and for the loops inside a round, does not change
the outcome of a game of that test that finished. -/
theorem perfectRounds_add (take : State → Action) {loopFuel loopFuel2 : Nat}
    (hle : loopFuel ≤ loopFuel2) (extra : Nat) :
    ∀ (fuel : Nat) (s t : State), perfectRounds take loopFuel fuel s = some t →
      perfectRounds take loopFuel2 (fuel + extra) s = some t := by
  obtain ⟨more, rfl⟩ := Nat.exists_eq_add_of_le hle
  intro fuel
  induction fuel with
  | zero =>
    intro s t h
    unfold perfectRounds at h ⊢
    split at h
    · simp at h
    · rename_i hc
      rw [if_neg hc]
      exact h
  | succ n ih =>
    intro s t h
    rw [Nat.add_right_comm]
    unfold perfectRounds at h ⊢
    split at h
    · rename_i hc
      rw [if_pos hc]
      simp only [Option.bind_eq_some] at h ⊢
      obtain ⟨s1, h1, s2, h2, h3⟩ := h
      exact ⟨s1, aiPlays_add take more loopFuel s s1 h1, s2,
        perfectMove_add take more loopFuel _ s1 s2 h2, ih s2 t h3⟩
    · rename_i hc
      rw [if_neg hc]
      exact h

/-! ## Whole games -/

/-- C2: played from `initialState` with `TAKE_TOKEN` payloads read from the
current state, whatever number of tokens between 1 and `canTake` the human
chooses on each of its turns before `SWITCH_TO_AI` is dispatched, the AI then
playing until the turn passes or the game is over, the game ends and its winner
is `false`.  So do the games of the 27 triples of the test, and from 4 tokens
left the round ends in `{tokensLeft 0, canTake 0, aiMove 4-k, playerIsHuman
false, winner false}`. -/
theorem ai_wins_when_human_starts (choose : Nat → State → Nat)
    (hchoose : ∀ turn state, state.playerIsHuman = true → state.winner = none →
      1 ≤ state.canTake → 1 ≤ choose turn state ∧ (choose turn state : Int) ≤ state.canTake)
    (aiFuel fuel : Nat) (hai : 3 ≤ aiFuel) (hfuel : 3 ≤ fuel) :
    (∃ final, humanFirstGame Game.takeToken choose aiFuel fuel 0 initialState = some final
        ∧ final.winner = some false)
    ∧ aiWinsEveryTime Game.takeToken fuel = true
    ∧ ∀ k : Nat, 1 ≤ k → k ≤ 3 →
        humanThenAI Game.takeToken aiFuel k ⟨4, 3, 0, true, none⟩
          = some ⟨0, 0, 4 - (k : Int), false, some false⟩ := by
  have round12 : ∀ k : Nat, 1 ≤ k → k ≤ 3 →
      humanThenAI Game.takeToken 3 k initialState = some ⟨8, 3, 0, true, none⟩ := by
    intro k h1 h3
    interval_cases k <;> decide
  have round8 : ∀ k : Nat, 1 ≤ k → k ≤ 3 →
      humanThenAI Game.takeToken 3 k ⟨8, 3, 0, true, none⟩ = some ⟨4, 3, 0, true, none⟩ := by
    intro k h1 h3
    interval_cases k <;> decide
  have round4 : ∀ k : Nat, 1 ≤ k → k ≤ 3 →
      humanThenAI Game.takeToken 3 k ⟨4, 3, 0, true, none⟩
        = some ⟨0, 0, 4 - (k : Int), false, some false⟩ := by
    intro k h1 h3
    interval_cases k <;> decide
  have bound : ∀ (turn : Nat) (s : State), s.playerIsHuman = true → s.winner = none →
      s.canTake = 3 → 1 ≤ choose turn s ∧ choose turn s ≤ 3 := by
    intro turn s hh hw hc
    have h := hchoose turn s hh hw (by rw [hc]; decide)
    rw [hc] at h
    exact ⟨h.1, by exact_mod_cast h.2⟩
  refine ⟨?_, aiWinsEveryTime_mono Game.takeToken hfuel (by decide!), ?_⟩
  · obtain ⟨m, rfl⟩ := Nat.exists_eq_add_of_le hfuel
    have b0 := bound 0 initialState rfl rfl rfl
    have b1 := bound 1 ⟨8, 3, 0, true, none⟩ rfl rfl rfl
    have b2 := bound 2 ⟨4, 3, 0, true, none⟩ rfl rfl rfl
    refine ⟨⟨0, 0, 4 - ((choose 2 ⟨4, 3, 0, true, none⟩ : Nat) : Int), false, some false⟩, ?_, rfl⟩
    rw [show 3 + m = m + 1 + 1 + 1 by omega]
    rw [humanFirstGame_step Game.takeToken choose aiFuel _ 0 rfl
      (humanThenAI_mono Game.takeToken hai (round12 _ b0.1 b0.2))]
    rw [humanFirstGame_step Game.takeToken choose aiFuel _ 1 rfl
      (humanThenAI_mono Game.takeToken hai (round8 _ b1.1 b1.2))]
    rw [humanFirstGame_step Game.takeToken choose aiFuel _ 2 rfl
      (humanThenAI_mono Game.takeToken hai (round4 _ b2.1 b2.2))]
    exact humanFirstGame_over Game.takeToken choose aiFuel m 3 (by simp)
  · intro k h1 h3
    exact humanThenAI_mono Game.takeToken hai (round4 k h1 h3)

/-- C2, with the human taking one token on every turn. -/
theorem ai_wins_when_human_starts_witness :
    (∃ final, humanFirstGame Game.takeToken (fun _ _ => 1) 3 3 0 initialState = some final
        ∧ final.winner = some false)
    ∧ aiWinsEveryTime Game.takeToken 3 = true
    ∧ ∀ k : Nat, 1 ≤ k → k ≤ 3 →
        humanThenAI Game.takeToken 3 k ⟨4, 3, 0, true, none⟩
          = some ⟨0, 0, 4 - (k : Int), false, some false⟩ :=
  ai_wins_when_human_starts (fun _ _ => 1)
    (fun _ _ _ _ h => ⟨Nat.le_refl 1, h⟩) 3 3 (Nat.le_refl 3) (Nat.le_refl 3)

/-- C3: when `SWITCH_TO_AI` is dispatched first from `initialState`, the AI plays
until its turn passes, and the human takes `(tokensLeft % 4) || 1` tokens on each
of its turns (payloads read from the current state), the game ends with
`winner = true`, in the state `{tokensLeft 0, canTake 0, aiMove 0, playerIsHuman
true, winner true}`. -/
theorem human_wins_when_ai_starts (fuel : Nat) (hfuel : 3 ≤ fuel) :
    ∃ final, perfectHumanGame Game.takeToken fuel = some final
      ∧ final.winner = some true ∧ final = ⟨0, 0, 0, true, some true⟩ := by
  have h3 : perfectHumanGame Game.takeToken 3 = some ⟨0, 0, 0, true, some true⟩ := by decide!
  refine ⟨⟨0, 0, 0, true, some true⟩, ?_, rfl, rfl⟩
  obtain ⟨extra, rfl⟩ := Nat.exists_eq_add_of_le hfuel
  unfold perfectHumanGame at h3 ⊢
  rw [Option.bind_eq_some] at h3 ⊢
  obtain ⟨s1, h1, h2⟩ := h3
  exact ⟨s1, h1, perfectRounds_add Game.takeToken (Nat.le_add_right 3 extra) extra 3 s1 _ h2⟩

/-- C3, with every loop bounded by 12 iterations. -/
theorem human_wins_when_ai_starts_witness :
    ∃ final, perfectHumanGame Game.takeToken 12 = some final
      ∧ final.winner = some true ∧ final = ⟨0, 0, 0, true, some true⟩ :=
  human_wins_when_ai_starts 12 (by decide)

/-! ## Turn assignment -/

/-- C4: in progress with the human active, `SET_PLAYER_TO_HUMAN false` gives a
state with `playerIsHuman = false`, with `canTake` and `aiMove` both equal to
`tokensLeft % 4` if that remainder is not zero and to 1 otherwise, and with
`tokensLeft` and `winner` unchanged.  The remainder is JavaScript's, which for
`tokensLeft ≥ 0` is the usual one. -/
theorem switch_to_ai (state : State) (hw : state.winner = none)
    (hh : state.playerIsHuman = true) :
    reducer state (Action.SET_PLAYER_TO_HUMAN false)
      = some { tokensLeft := state.tokensLeft
               canTake := if Int.tmod state.tokensLeft 4 ≠ 0
                 then Int.tmod state.tokensLeft 4 else 1
               aiMove := if Int.tmod state.tokensLeft 4 ≠ 0
                 then Int.tmod state.tokensLeft 4 else 1
               playerIsHuman := false
               winner := state.winner }
    ∧ (0 ≤ state.tokensLeft → Int.tmod state.tokensLeft 4 = state.tokensLeft % 4) := by
  refine ⟨?_, fun h => Int.tmod_eq_emod h (by decide)⟩
  have h4 : MAX_TAKEN + 1 = 4 := by decide
  simp only [reducer, setPlayerToHuman, hw, hh, h4]
  by_cases hr : Int.tmod state.tokensLeft 4 = 0 <;> simp [hr]

/-- C4, at `initialState` (the result is `{tokensLeft 12, canTake 1, aiMove 1,
playerIsHuman false}`) and with 10 tokens left (`canTake 2`, `aiMove 2`). -/
theorem switch_to_ai_witness :
    initialState.winner = none ∧ initialState.playerIsHuman = true
    ∧ reducer initialState (Action.SET_PLAYER_TO_HUMAN false) = some ⟨12, 1, 1, false, none⟩
    ∧ reducer ⟨10, 1, 0, true, none⟩ (Action.SET_PLAYER_TO_HUMAN false)
        = some ⟨10, 2, 2, false, none⟩ :=
  ⟨rfl, rfl, (switch_to_ai initialState rfl rfl).1.trans (by decide),
    (switch_to_ai ⟨10, 1, 0, true, none⟩ rfl rfl).1.trans (by decide)⟩

/-- C5: in progress with the AI active, `SET_PLAYER_TO_HUMAN true` gives a state
with `playerIsHuman = true`, `canTake = min(3, tokensLeft)`, `aiMove = 0`, and
`tokensLeft` and `winner` unchanged. -/
theorem switch_to_human (state : State) (hw : state.winner = none)
    (hh : state.playerIsHuman = false) :
    reducer state (Action.SET_PLAYER_TO_HUMAN true)
      = some { tokensLeft := state.tokensLeft
               canTake := min 3 state.tokensLeft
               aiMove := 0
               playerIsHuman := true
               winner := state.winner } := by
  simp [reducer, setPlayerToHuman, hw, hh, MAX_TAKEN]

/-- C5, at the state of the test "set player back to human"; the result is
`initialState`. -/
theorem switch_to_human_witness :
    (⟨12, 1, 1, false, none⟩ : State).winner = none
    ∧ (⟨12, 1, 1, false, none⟩ : State).playerIsHuman = false
    ∧ reducer ⟨12, 1, 1, false, none⟩ (Action.SET_PLAYER_TO_HUMAN true) = some initialState :=
  ⟨rfl, rfl, (switch_to_human ⟨12, 1, 1, false, none⟩ rfl rfl).trans (by decide)⟩

/-- C6: turn assignment is idempotent.  If `b` is already the state's
`playerIsHuman`, `SET_PLAYER_TO_HUMAN b` returns the state unchanged; and for
every `b`, dispatching `SET_PLAYER_TO_HUMAN b` twice gives what dispatching it
once gives. -/
theorem set_player_idempotent (state : State) (b : Bool) :
    (b = state.playerIsHuman → reducer state (Action.SET_PLAYER_TO_HUMAN b) = some state)
    ∧ (reducer state (Action.SET_PLAYER_TO_HUMAN b)).bind
        (fun s => reducer s (Action.SET_PLAYER_TO_HUMAN b))
      = reducer state (Action.SET_PLAYER_TO_HUMAN b) := by
  constructor
  · intro hb
    by_cases hw : state.winner = none <;> simp [reducer, setPlayerToHuman, hw, hb]
  · by_cases hw : state.winner = none
    · by_cases hb : b = state.playerIsHuman
      · simp [reducer, setPlayerToHuman, hw, hb]
      · cases b <;> simp [reducer, setPlayerToHuman, hw, hb]
    · simp [reducer, hw]

/-- C6, at the state of the test "ignore switch to AI if AI is already the
player". -/
theorem set_player_idempotent_witness :
    false = (⟨5, 1, 1, false, none⟩ : State).playerIsHuman
    ∧ reducer ⟨5, 1, 1, false, none⟩ SWITCH_TO_AI = some ⟨5, 1, 1, false, none⟩ :=
  ⟨rfl, (set_player_idempotent ⟨5, 1, 1, false, none⟩ false).1 rfl⟩

/-! ## Taking a token -/

/-- C7: in progress, for `TAKE_TOKEN` with the payload read from the state, if
`canTake > 1` the result has `tokensLeft` and `canTake` each one less than
before, and `playerIsHuman`, `aiMove` and `winner` unchanged. -/
theorem take_token_same_player (state : State) (hw : state.winner = none)
    (hc : 1 < state.canTake) :
    reducer state (Game.takeToken state)
      = some { tokensLeft := state.tokensLeft - 1
               canTake := state.canTake - 1
               aiMove := state.aiMove
               playerIsHuman := state.playerIsHuman
               winner := state.winner } := by
  have hne : state.canTake - 1 ≠ 0 := by omega
  simp [reducer, Game.takeToken, takeToken, hw, hne]

/-- C7, at `initialState` (the result is `{tokensLeft 11, canTake 2}`) and at
that result (`{tokensLeft 10, canTake 1}`). -/
theorem take_token_same_player_witness :
    initialState.winner = none ∧ 1 < initialState.canTake
    ∧ reducer initialState (Game.takeToken initialState) = some ⟨11, 2, 0, true, none⟩
    ∧ reducer ⟨11, 2, 0, true, none⟩ (Game.takeToken ⟨11, 2, 0, true, none⟩)
        = some ⟨10, 1, 0, true, none⟩ :=
  ⟨rfl, by decide, (take_token_same_player initialState rfl (by decide)).trans (by decide),
    (take_token_same_player ⟨11, 2, 0, true, none⟩ rfl (by decide)).trans (by decide)⟩

/-- C8: in progress, for `TAKE_TOKEN` with the payload read from the state, if
`canTake = 1` and `tokensLeft > 1` the result has `tokensLeft` one less,
`playerIsHuman` negated and `winner` still unset; `canTake` and `aiMove` are
what `setPlayerToHuman` computes for the new player on the reduced pool:
`canTake = min(3, tokensLeft - 1)` and `aiMove = 0` when the human becomes
active, `canTake = aiMove = ((tokensLeft - 1) % 4) || 1` when the AI does. -/
theorem take_token_passes_turn (state : State) (hw : state.winner = none)
    (hc : state.canTake = 1) (ht : 1 < state.tokensLeft) :
    ∃ next, reducer state (Game.takeToken state) = some next
      ∧ next = setPlayerToHuman { state with tokensLeft := state.tokensLeft - 1, canTake := 0 }
          (!state.playerIsHuman)
      ∧ next.tokensLeft = state.tokensLeft - 1
      ∧ next.playerIsHuman = (!state.playerIsHuman)
      ∧ next.winner = none
      ∧ (state.playerIsHuman = false →
          next.canTake = min 3 (state.tokensLeft - 1) ∧ next.aiMove = 0)
      ∧ (state.playerIsHuman = true →
          next.canTake = (if Int.tmod (state.tokensLeft - 1) 4 = 0 then 1
            else Int.tmod (state.tokensLeft - 1) 4)
          ∧ next.aiMove = next.canTake) := by
  have hne : state.tokensLeft - 1 ≠ 0 := by omega
  have h4 : MAX_TAKEN + 1 = 4 := by decide
  cases hp : state.playerIsHuman <;>
    simp [reducer, Game.takeToken, takeToken, setPlayerToHuman, hw, hc, hne, hp, h4, MAX_TAKEN]

/-- C8, for the AI at `{tokensLeft 9, canTake 1}` and for the human's third token
from 8. -/
theorem take_token_passes_turn_witness :
    (∃ next, reducer ⟨9, 1, 2, false, none⟩ (Game.takeToken ⟨9, 1, 2, false, none⟩) = some next
      ∧ next = ⟨8, 3, 0, true, none⟩)
    ∧ (∃ next, reducer ⟨6, 1, 0, true, none⟩ (Game.takeToken ⟨6, 1, 0, true, none⟩) = some next
      ∧ next = ⟨5, 1, 1, false, none⟩)
    ∧ humanTakes Game.takeToken 3 ⟨8, 3, 0, true, none⟩ = some ⟨5, 1, 1, false, none⟩ := by
  refine ⟨?_, ?_, by decide⟩
  · obtain ⟨next, h1, h2, _⟩ :=
      take_token_passes_turn ⟨9, 1, 2, false, none⟩ rfl rfl (by decide)
    exact ⟨next, h1, h2.trans (by decide)⟩
  · obtain ⟨next, h1, h2, _⟩ :=
      take_token_passes_turn ⟨6, 1, 0, true, none⟩ rfl rfl (by decide)
    exact ⟨next, h1, h2.trans (by decide)⟩

/-- C9: in progress, for `TAKE_TOKEN` whose payload has `tokensLeft = 1` and
`canTake = 1`, the result has `tokensLeft = 0`, `canTake = 0`, `winner` set to
the input state's `playerIsHuman`, and `playerIsHuman` and `aiMove` unchanged. -/
theorem take_last_token (state : State) (payload : Payload) (hw : state.winner = none)
    (ht : payload.tokensLeft = 1) (hc : payload.canTake = 1) :
    reducer state (Action.TAKE_TOKEN (some payload))
      = some { tokensLeft := 0
               canTake := 0
               aiMove := state.aiMove
               playerIsHuman := state.playerIsHuman
               winner := some state.playerIsHuman } := by
  simp [reducer, takeToken, hw, ht, hc]

/-- C9, for the AI taking the last token (the `winningState` of the test, with
`aiMove` 1) and for the human taking it. -/
theorem take_last_token_witness :
    reducer ⟨1, 1, 1, false, none⟩ (Game.takeToken ⟨1, 1, 1, false, none⟩)
      = some ⟨0, 0, 1, false, some false⟩
    ∧ reducer ⟨1, 1, 0, true, none⟩ (Game.takeToken ⟨1, 1, 0, true, none⟩)
      = some ⟨0, 0, 0, true, some true⟩ :=
  ⟨take_last_token ⟨1, 1, 1, false, none⟩ ⟨1, 1⟩ rfl rfl rfl,
    take_last_token ⟨1, 1, 0, true, none⟩ ⟨1, 1⟩ rfl rfl rfl⟩

/-! ## Invariants of play -/

/-- Every move of a caller keeps the bound on `canTake`, and the reducer returns a
state for it. -/
theorem canTakeBounded_step (state : State) (move : Move) (h : CanTakeBounded state) :
    ∃ next, reducer state (move.action state) = some next ∧ CanTakeBounded next := by
  obtain ⟨hle, hpos⟩ := h
  have h3 : MAX_TAKEN = 3 := rfl
  have h31 : (3 : Int) + 1 = 4 := rfl
  rw [h3] at hle
  by_cases hw : state.winner = none
  · have h1 := hpos hw
    have hmod : Int.tmod state.tokensLeft 4 = state.tokensLeft % 4 :=
      Int.tmod_eq_emod (by omega) (by decide)
    have hmod1 : Int.tmod (state.tokensLeft - 1) 4 = (state.tokensLeft - 1) % 4 :=
      Int.tmod_eq_emod (by omega) (by decide)
    cases move with
    | setPlayer b =>
      refine ⟨setPlayerToHuman state b, by simp [reducer, Move.action, hw], ?_⟩
      unfold setPlayerToHuman CanTakeBounded
      by_cases hb : b = state.playerIsHuman
      · rw [if_pos hb, h3]
        exact ⟨hle, hpos⟩
      · rw [if_neg hb]
        cases b
        · simp only [h3, h31, hmod, Bool.not_false, if_true]
          constructor
          · split <;> omega
          · intro _; split <;> omega
        · simp only [h3, Bool.not_true, Bool.false_eq_true, if_false]
          constructor
          · omega
          · intro _; omega
    | take =>
      refine ⟨takeToken state ⟨state.tokensLeft, state.canTake⟩,
        by simp [reducer, Move.action, Game.takeToken, hw], ?_⟩
      unfold takeToken CanTakeBounded
      simp only []
      by_cases hc : state.canTake - 1 = 0
      · rw [if_pos hc]
        by_cases ht : state.tokensLeft - 1 ≠ 0
        · rw [if_pos ht]
          unfold setPlayerToHuman
          cases hp : state.playerIsHuman
          · simp only [h3, Bool.not_false, Bool.not_true, Bool.true_eq_false, Bool.false_eq_true,
              if_false]
            constructor
            · omega
            · intro _; omega
          · simp only [h3, h31, hmod1, Bool.not_false, Bool.not_true, Bool.true_eq_false,
              Bool.false_eq_true, if_false, if_true]
            constructor
            · split <;> omega
            · intro _; split <;> omega
        · rw [if_neg ht, h3]
          simp only [ne_eq, not_not] at ht
          constructor
          · simp only []; omega
          · intro hwin; simp at hwin
      · rw [if_neg hc, h3]
        constructor
        · simp only []; omega
        · intro _; simp only []; omega
  · refine ⟨state, by simp [reducer, hw], ?_⟩
    exact ⟨by rw [h3]; exact hle, hpos⟩

/-- C10: every sequence of `SET_PLAYER_TO_HUMAN` actions (either boolean) and
`TAKE_TOKEN` actions with the payload read from the current state, dispatched
from `initialState`, reaches a state, and in that state
`canTake ≤ min(3, tokensLeft)`; while the game is in progress also
`canTake ≥ 1`. -/
theorem canTake_bounded_in_play (moves : List Move) :
    ∃ state, play moves initialState = some state
      ∧ state.canTake ≤ min 3 state.tokensLeft
      ∧ (state.winner = none → 1 ≤ state.canTake) := by
  have key : ∀ (moves : List Move) (start : State), CanTakeBounded start →
      ∃ state, play moves start = some state ∧ CanTakeBounded state := by
    intro moves
    induction moves with
    | nil => intro start h; exact ⟨start, rfl, h⟩
    | cons move rest ih =>
      intro start h
      obtain ⟨next, hnext, hinv⟩ := canTakeBounded_step start move h
      obtain ⟨state, hplay, hstate⟩ := ih next hinv
      refine ⟨state, ?_, hstate⟩
      unfold play
      rw [hnext]
      exact hplay
  obtain ⟨state, hplay, hinv⟩ := key moves initialState ⟨by decide, fun _ => by decide⟩
  exact ⟨state, hplay, hinv.1, hinv.2⟩

/-- C10, after the human has taken two tokens and switched to the AI, which has
taken one. -/
theorem canTake_bounded_in_play_witness :
    ∃ state, play [Move.take, Move.take, Move.setPlayer false, Move.take] initialState
        = some state
      ∧ state.canTake ≤ min 3 state.tokensLeft
      ∧ (state.winner = none → 1 ≤ state.canTake) :=
  canTake_bounded_in_play [Move.take, Move.take, Move.setPlayer false, Move.take]

/-- Every move of a caller keeps `PlayInvariant`, the reducer returns a state for
it, and `tokensLeft` drops by `Move.tokens`. -/
theorem playInvariant_step (state : State) (move : Move) (h : PlayInvariant state) :
    ∃ next, reducer state (move.action state) = some next ∧ PlayInvariant next
      ∧ next.tokensLeft = state.tokensLeft - move.tokens state := by
  obtain ⟨hb, hwf, hwe⟩ := h
  obtain ⟨next, hnext, hbnext⟩ := canTakeBounded_step state move hb
  refine ⟨next, hnext, ⟨hbnext, ?_⟩, ?_⟩ <;> clear hbnext
  all_goals
    obtain ⟨t, c, a, p, w⟩ := state
    simp only [CanTakeBounded, WellFormed, WinnerIffEmpty, MAX_TAKEN, STARTING_TOTAL] at hb hwf hwe ⊢
    cases w with
    | some b =>
      simp [reducer] at hnext
      subst hnext
      simp_all [Move.tokens]
    | none =>
      have ht : 1 ≤ t := by have := hb.2 rfl; omega
      have hmod : Int.tmod t 4 = t % 4 := Int.tmod_eq_emod (by omega) (by decide)
      have hmod1 : Int.tmod (t - 1) 4 = (t - 1) % 4 := Int.tmod_eq_emod (by omega) (by decide)
      cases move with
      | setPlayer b =>
        cases b <;> cases p <;>
          simp [reducer, Move.action, setPlayerToHuman, MAX_TAKEN, hmod] at hnext <;>
          subst hnext <;> simp_all [Move.tokens] <;> omega
      | take =>
        by_cases hc : c - 1 = 0 <;> by_cases ht1 : t - 1 = 0 <;> cases p <;>
          simp [reducer, Move.action, Game.takeToken, takeToken, setPlayerToHuman, MAX_TAKEN,
            hmod1, hc, ht1] at hnext <;>
          subst hnext <;> simp_all [Move.tokens] <;> omega

/-- Play from a state with `PlayInvariant` reaches a state with it, in which
`tokensLeft` has dropped by the number of `TAKE_TOKEN` moves, down to zero at
most. -/
theorem play_invariant : ∀ (moves : List Move) (start : State), PlayInvariant start →
    ∃ state, play moves start = some state ∧ PlayInvariant state
      ∧ state.tokensLeft = max 0 (start.tokensLeft - (moves.count Move.take : Int)) := by
  intro moves
  induction moves with
  | nil =>
    intro start h
    refine ⟨start, rfl, h, ?_⟩
    have h0 := h.2.1.1.1
    simp only [List.count_nil, Nat.cast_zero]
    omega
  | cons move rest ih =>
    intro start h
    obtain ⟨next, hnext, hinv, htok⟩ := playInvariant_step start move h
    obtain ⟨state, hplay, hstate, hcount⟩ := ih next hinv
    refine ⟨state, ?_, hstate, ?_⟩
    · unfold play
      rw [hnext]
      exact hplay
    · rw [hcount, htok]
      have hwe := h.2.2
      have h1 : CanTakeBounded start := h.1
      unfold WinnerIffEmpty at hwe
      unfold CanTakeBounded at h1
      unfold Move.tokens
      cases move with
      | setPlayer b => simp [List.count_cons]
      | take =>
        by_cases hw : start.winner = none
        · simp [List.count_cons, hw]
          omega
        · have h0 : start.tokensLeft = 0 := hwe.mp hw
          simp [List.count_cons, hw, h0]
          omega

/-- Once there is a winner, no sequence of moves changes the state. -/
theorem play_game_over : ∀ (moves : List Move) (state : State), state.winner ≠ none →
    play moves state = some state := by
  intro moves
  induction moves with
  | nil => intro state _; rfl
  | cons move rest ih =>
    intro state hw
    unfold play
    have h : reducer state (move.action state) = some state := by
      unfold reducer
      rw [if_pos hw]
    rw [h]
    exact ih state hw

/-- The constant `initialState` satisfies `PlayInvariant`. -/
theorem playInvariant_initialState : PlayInvariant initialState := by
  decide

/-- C11: `winner` is unset in `initialState`, and every sequence of
`SET_PLAYER_TO_HUMAN` and `TAKE_TOKEN` actions (payload read from the current
state) dispatched from it reaches a state in which `winner` is set if and only
if `tokensLeft = 0`.  There `tokensLeft` is 12 less the number of `TAKE_TOKEN`
actions, or 0 if there were more than 12, so the game is over exactly when 12 or
more `TAKE_TOKEN` actions were dispatched; and once it is over no action, and no
further sequence of moves, changes any field. -/
theorem winner_iff_no_tokens (moves : List Move) :
    initialState.winner = none
    ∧ ∃ state, play moves initialState = some state
      ∧ (state.winner ≠ none ↔ state.tokensLeft = 0)
      ∧ state.tokensLeft = max 0 (12 - (moves.count Move.take : Int))
      ∧ (state.winner ≠ none ↔ 12 ≤ moves.count Move.take)
      ∧ (state.winner ≠ none → ∀ action : Action, reducer state action = some state)
      ∧ (state.winner ≠ none → ∀ more : List Move, play more state = some state) := by
  refine ⟨rfl, ?_⟩
  obtain ⟨state, hplay, hinv, hcount⟩ := play_invariant moves initialState playInvariant_initialState
  have hwe : state.winner ≠ none ↔ state.tokensLeft = 0 := hinv.2.2
  have h12 : initialState.tokensLeft = 12 := rfl
  rw [h12] at hcount
  refine ⟨state, hplay, hwe, hcount, ?_, ?_, ?_⟩
  · rw [hwe, hcount]
    omega
  · intro hw action
    unfold reducer
    rw [if_pos hw]
  · intro hw more
    exact play_game_over more state hw

/-- C11, for a game of twelve `TAKE_TOKEN` actions with a switch to the AI after
the second: the game is over, and a thirteenth changes nothing. -/
theorem winner_iff_no_tokens_witness :
    play [Move.take, Move.take, Move.setPlayer false, Move.take, Move.take, Move.take,
        Move.take, Move.take, Move.take, Move.take, Move.take, Move.take, Move.take]
      initialState = some ⟨0, 0, 1, false, some false⟩
    ∧ play [Move.take] ⟨0, 0, 1, false, some false⟩ = some ⟨0, 0, 1, false, some false⟩ := by
  obtain ⟨_, state, hplay, _, _, _, _, hover⟩ := winner_iff_no_tokens
    [Move.take, Move.take, Move.setPlayer false, Move.take, Move.take, Move.take,
      Move.take, Move.take, Move.take, Move.take, Move.take, Move.take, Move.take]
  have hstate : state = ⟨0, 0, 1, false, some false⟩ :=
    Option.some.inj (hplay.symm.trans (by decide!))
  subst hstate
  exact ⟨hplay, hover (by decide) [Move.take]⟩

/-- C12: every sequence of `SET_PLAYER_TO_HUMAN` and `TAKE_TOKEN` actions (payload
read from the current state) dispatched from `initialState` reaches a state that
is well formed: `0 ≤ tokensLeft ≤ 12`, `0 ≤ canTake ≤ 3`, `0 ≤ aiMove ≤ 3`, and
`aiMove = 0` whenever the human is the active player. -/
theorem reachable_well_formed (moves : List Move) :
    ∃ state, play moves initialState = some state
      ∧ (0 ≤ state.tokensLeft ∧ state.tokensLeft ≤ 12)
      ∧ (0 ≤ state.canTake ∧ state.canTake ≤ 3)
      ∧ (0 ≤ state.aiMove ∧ state.aiMove ≤ 3)
      ∧ (state.playerIsHuman = true → state.aiMove = 0) := by
  obtain ⟨state, hplay, hinv, _⟩ := play_invariant moves initialState playInvariant_initialState
  exact ⟨state, hplay, hinv.2.1⟩

/-- C12, after the human has taken two tokens and switched to the AI, which has
taken two and passed the turn back. -/
theorem reachable_well_formed_witness :
    ∃ state, play [Move.take, Move.take, Move.setPlayer false, Move.take, Move.take]
        initialState = some state
      ∧ (0 ≤ state.tokensLeft ∧ state.tokensLeft ≤ 12)
      ∧ (0 ≤ state.canTake ∧ state.canTake ≤ 3)
      ∧ (0 ≤ state.aiMove ∧ state.aiMove ≤ 3)
      ∧ (state.playerIsHuman = true → state.aiMove = 0) :=
  reachable_well_formed [Move.take, Move.take, Move.setPlayer false, Move.take, Move.take]

/-! ## Actions the reducer does not expect -/

/-- C13: for the `TAKE_TOKEN` action without payload that the test suite
dispatches, the reducer does not return a state from `initialState`: `takeToken`
throws on destructuring the missing payload.  It does not return the state
`{...initialState, tokensLeft 11, canTake 2}` that the test expects; that state
is what it returns when the payload is read from the state. -/
theorem reducer_throws_without_payload :
    reducer initialState Test.TAKE_TOKEN = none
    ∧ reducer initialState Test.TAKE_TOKEN ≠ some ⟨11, 2, 0, true, none⟩
    ∧ reducer initialState (Game.takeToken initialState) = some ⟨11, 2, 0, true, none⟩ := by
  decide

/-- C14: for an action whose type is neither `SET_PLAYER_TO_HUMAN` nor
`TAKE_TOKEN`, the reducer returns a state equal to the input in every field
(`tokensLeft`, `canTake`, `aiMove`, `playerIsHuman`, `winner`). -/
theorem unknown_action_no_change (state : State) (type : String) :
    ∃ next, reducer state (Action.unknown type) = some next
      ∧ next.tokensLeft = state.tokensLeft ∧ next.canTake = state.canTake
      ∧ next.aiMove = state.aiMove ∧ next.playerIsHuman = state.playerIsHuman
      ∧ next.winner = state.winner := by
  refine ⟨state, ?_, rfl, rfl, rfl, rfl, rfl⟩
  unfold reducer
  split <;> rfl

/-! ## What `takeToken` does to `aiMove` -/

/-- C15, as stated, fails: when the AI at `{tokensLeft 9, canTake 1, aiMove 2}`
takes its last token, the turn passes and `aiMove` becomes 0. -/
theorem take_token_changes_aiMove :
    reducer ⟨9, 1, 2, false, none⟩ (Game.takeToken ⟨9, 1, 2, false, none⟩)
      = some ⟨8, 3, 0, true, none⟩
    ∧ (⟨8, 3, 0, true, none⟩ : State).aiMove ≠ (⟨9, 1, 2, false, none⟩ : State).aiMove := by
  decide

/-- C15, amended: in progress, `TAKE_TOKEN` leaves `aiMove` unchanged unless the
turn passes, that is when the payload has `canTake ≠ 1` or `tokensLeft = 1`.
When the turn passes (`canTake = 1` and `tokensLeft ≠ 1` in the payload),
`aiMove` is what `setPlayerToHuman` computes for the other player: 0 when the
human becomes active, `((tokensLeft - 1) % 4) || 1` when the AI does. -/
theorem take_token_aiMove (state : State) (payload : Payload) (hw : state.winner = none) :
    ∃ next, reducer state (Action.TAKE_TOKEN (some payload)) = some next
      ∧ (payload.canTake ≠ 1 ∨ payload.tokensLeft = 1 → next.aiMove = state.aiMove)
      ∧ (payload.canTake = 1 → payload.tokensLeft ≠ 1 →
          (state.playerIsHuman = false → next.aiMove = 0)
          ∧ (state.playerIsHuman = true →
              next.aiMove = (if Int.tmod (payload.tokensLeft - 1) 4 = 0 then 1
                else Int.tmod (payload.tokensLeft - 1) 4))) := by
  have h4 : MAX_TAKEN + 1 = 4 := by decide
  refine ⟨takeToken state payload, by simp [reducer, hw], ?_, ?_⟩
  · intro h
    unfold takeToken
    simp only []
    rcases h with hc | ht
    · have hne : payload.canTake - 1 ≠ 0 := by omega
      rw [if_neg hne]
    · have h0 : ¬ (payload.tokensLeft - 1 ≠ 0) := by omega
      by_cases hc : payload.canTake - 1 = 0
      · rw [if_pos hc, if_neg h0]
      · rw [if_neg hc]
  · intro hc ht
    have hne : payload.tokensLeft - 1 ≠ 0 := by omega
    cases hp : state.playerIsHuman <;>
      simp [takeToken, setPlayerToHuman, hc, hne, hp, h4]

/-- C15 amended, at the two states of the tests: the AI takes the first of two
tokens (`aiMove` stays 2), then the second (`aiMove` becomes 0). -/
theorem take_token_aiMove_witness :
    (∃ next, reducer ⟨10, 2, 2, false, none⟩ (Action.TAKE_TOKEN (some ⟨10, 2⟩)) = some next
      ∧ next.aiMove = 2)
    ∧ (∃ next, reducer ⟨9, 1, 2, false, none⟩ (Action.TAKE_TOKEN (some ⟨9, 1⟩)) = some next
      ∧ next.aiMove = 0) := by
  constructor
  · obtain ⟨next, h1, h2, _⟩ := take_token_aiMove ⟨10, 2, 2, false, none⟩ ⟨10, 2⟩ rfl
    exact ⟨next, h1, h2 (Or.inl (by decide))⟩
  · obtain ⟨next, h1, _, h3⟩ := take_token_aiMove ⟨9, 1, 2, false, none⟩ ⟨9, 1⟩ rfl
    exact ⟨next, h1, (h3 rfl (by decide)).1 rfl⟩

/-- C16, as stated, fails: when the AI at `{tokensLeft 10, canTake 2, aiMove 2}`
takes a token, `aiMove` is still 2, not 1. -/
theorem aiMove_not_decremented :
    reducer ⟨10, 2, 2, false, none⟩ (Game.takeToken ⟨10, 2, 2, false, none⟩)
      = some ⟨9, 1, 2, false, none⟩
    ∧ (⟨9, 1, 2, false, none⟩ : State).aiMove ≠ (⟨10, 2, 2, false, none⟩ : State).aiMove - 1 := by
  decide

/-- C16, amended: in progress with the AI active and `canTake > 1`, a `TAKE_TOKEN`
with the payload read from the state yields a state whose `aiMove` is the same
as before; it is `canTake` that is one less than before. -/
theorem aiMove_kept_while_ai_plays (state : State) (hw : state.winner = none)
    (hh : state.playerIsHuman = false) (hc : 1 < state.canTake) :
    ∃ next, reducer state (Game.takeToken state) = some next
      ∧ next.aiMove = state.aiMove
      ∧ next.canTake = state.canTake - 1
      ∧ next.playerIsHuman = false := by
  have hne : state.canTake - 1 ≠ 0 := by omega
  refine ⟨takeToken state ⟨state.tokensLeft, state.canTake⟩,
    by simp [reducer, Game.takeToken, hw], ?_, ?_, ?_⟩ <;>
    simp [takeToken, hne, hh]

/-- C16 amended, at the state of the test "take a token as AI". -/
theorem aiMove_kept_while_ai_plays_witness :
    ∃ next, reducer ⟨10, 2, 2, false, none⟩ (Game.takeToken ⟨10, 2, 2, false, none⟩) = some next
      ∧ next.aiMove = 2
      ∧ next.canTake = 1
      ∧ next.playerIsHuman = false :=
  aiMove_kept_while_ai_plays ⟨10, 2, 2, false, none⟩ rfl rfl (by decide)

/-! ## The AI's turn -/

/-- Playing one sequence of moves after another. -/
theorem play_append : ∀ (xs ys : List Move) (state : State),
    play (xs ++ ys) state = (play xs state).bind (play ys) := by
  intro xs
  induction xs with
  | nil => intro ys state; rfl
  | cons x rest ih =>
    intro ys state
    simp only [List.cons_append, play]
    cases reducer state (x.action state) with
    | none => rfl
    | some next => exact ih ys next

/-- While fewer tokens have been taken than `canTake` allowed, each `TAKE_TOKEN`
only lowers `tokensLeft` and `canTake` by one. -/
theorem play_takes : ∀ (j : Nat) (state : State), state.winner = none →
    (j : Int) < state.canTake →
    play (List.replicate j Move.take) state
      = some { state with tokensLeft := state.tokensLeft - j, canTake := state.canTake - j } := by
  intro j
  induction j with
  | zero =>
    intro state _ _
    simp [play]
  | succ j ih =>
    intro state hw hj
    have hne : state.canTake - 1 ≠ 0 := by omega
    have hstep : reducer state (Move.take.action state)
        = some { state with tokensLeft := state.tokensLeft - 1, canTake := state.canTake - 1 } := by
      simp [reducer, Move.action, Game.takeToken, takeToken, hw, hne]
    simp only [List.replicate_succ, play, hstep, Option.some_bind]
    have hj1 : (j : Int) < state.canTake - 1 := by push_cast at hj; omega
    rw [ih ⟨state.tokensLeft - 1, state.canTake - 1, state.aiMove, state.playerIsHuman,
      state.winner⟩ hw hj1]
    simp only [Option.some.injEq, State.mk.injEq, and_true, true_and]
    constructor <;> push_cast <;> omega

/-- C17: in progress with the human active and `tokensLeft = n ≥ 1`, after
`SET_PLAYER_TO_HUMAN false` has set `aiMove = m`, the AI is still the active
player, with the game in progress, after each of the first `m - 1` `TAKE_TOKEN`
actions (payloads read from the current state); the `m`-th leaves `n - m`
tokens and either passes the turn to the human (when `n > m`) or ends the game
with `winner = false` (when `n = m`). -/
theorem ai_takes_committed_tokens (state : State) (hw : state.winner = none)
    (hh : state.playerIsHuman = true) (hn : 1 ≤ state.tokensLeft) :
    ∃ (m : Nat) (start : State),
      reducer state SWITCH_TO_AI = some start
      ∧ start.aiMove = m ∧ 1 ≤ m ∧ m ≤ 3 ∧ (m : Int) ≤ state.tokensLeft
      ∧ (∀ j : Nat, j < m → ∃ mid, play (List.replicate j Move.take) start = some mid
            ∧ mid.playerIsHuman = false ∧ mid.winner = none
            ∧ mid.tokensLeft = state.tokensLeft - j)
      ∧ ∃ last, play (List.replicate m Move.take) start = some last
          ∧ last.tokensLeft = state.tokensLeft - m
          ∧ ((m : Int) < state.tokensLeft → last.playerIsHuman = true ∧ last.winner = none)
          ∧ (state.tokensLeft = m → last.winner = some false) := by
  obtain ⟨n, c, a0, p, w⟩ := state
  simp only at hw hh hn
  subst hw hh
  have hmod : Int.tmod n 4 = n % 4 := Int.tmod_eq_emod (by omega) (by decide)
  obtain ⟨k, hk⟩ : ∃ k : Nat, ((k : Int) + 1) = (if n % 4 = 0 then 1 else n % 4) := by
    refine ⟨((if n % 4 = 0 then 1 else n % 4) - 1).toNat, ?_⟩
    split <;> omega
  have hk3 : k + 1 ≤ 3 := by
    split at hk <;> omega
  have hkn : ((k : Int) + 1) ≤ n := by
    split at hk <;> omega
  have hstart : reducer ⟨n, c, a0, true, none⟩ SWITCH_TO_AI
      = some ⟨n, (k : Int) + 1, (k : Int) + 1, false, none⟩ := by
    have h4 : MAX_TAKEN + 1 = 4 := by decide
    simp only [reducer, SWITCH_TO_AI, setPlayerToHuman, h4, hmod, hk]
    simp
  refine ⟨k + 1, ⟨n, (k : Int) + 1, (k : Int) + 1, false, none⟩, hstart, by push_cast; rfl,
    by omega, hk3, by push_cast; exact hkn, ?_, ?_⟩
  · intro j hj
    have hrun := play_takes j ⟨n, (k : Int) + 1, (k : Int) + 1, false, none⟩ rfl
      (by simp only []; omega)
    exact ⟨_, hrun, rfl, rfl, rfl⟩
  · have hrun := play_takes k ⟨n, (k : Int) + 1, (k : Int) + 1, false, none⟩ rfl
      (by simp only []; omega)
    rw [List.replicate_succ', play_append, hrun]
    simp only [Option.some_bind, play, Move.action, Game.takeToken]
    have hc : (k : Int) + 1 - k - 1 = 0 := by omega
    by_cases hlast : n - (k : Int) - 1 = 0
    · refine ⟨⟨0, 0, (k : Int) + 1, false, some false⟩, ?_, ?_, ?_, ?_⟩
      · simp [reducer, takeToken, hc, hlast]
      · simp only []; push_cast; omega
      · intro hlt; push_cast at hlt; omega
      · intro _; rfl
    · refine ⟨⟨n - (k : Int) - 1, min 3 (n - (k : Int) - 1), 0, true, none⟩, ?_, ?_, ?_, ?_⟩
      · simp [reducer, takeToken, setPlayerToHuman, hc, hlast, MAX_TAKEN]
      · simp only []; push_cast; omega
      · intro _; exact ⟨rfl, rfl⟩
      · intro heq; push_cast at heq; omega

/-- C17, with 5 tokens left: the AI commits to one token, takes it, and the turn
passes to the human with 4 tokens left. -/
theorem ai_takes_committed_tokens_witness :
    reducer ⟨5, 3, 0, true, none⟩ SWITCH_TO_AI = some ⟨5, 1, 1, false, none⟩
    ∧ play [Move.take] ⟨5, 1, 1, false, none⟩ = some ⟨4, 3, 0, true, none⟩ := by
  obtain ⟨m, start, hstart, hm, _, _, _, _, last, hplay, _, _, _⟩ :=
    ai_takes_committed_tokens ⟨5, 3, 0, true, none⟩ rfl rfl (by decide)
  have hs : start = ⟨5, 1, 1, false, none⟩ :=
    Option.some.inj (hstart.symm.trans (by decide))
  subst hs
  have hm1 : m = 1 := by
    have h1 : ((1 : Int)) = (m : Int) := hm
    omega
  subst hm1
  have hl : last = ⟨4, 3, 0, true, none⟩ :=
    Option.some.inj (hplay.symm.trans (by decide))
  subst hl
  exact ⟨hstart, hplay⟩

/-- C18: for `tokensLeft ≥ 1`, the `aiMove` that `setPlayerToHuman` computes on
switching to the AI is legal, `1 ≤ aiMove ≤ min(3, tokensLeft)`, and equals
`canTake`; if `tokensLeft` is not a multiple of 4 then `tokensLeft - aiMove` is
one, and if `tokensLeft` is a multiple of 4 then `aiMove = 1`. -/
theorem ai_move_legal (state : State) (hh : state.playerIsHuman = true)
    (hn : 1 ≤ state.tokensLeft) :
    1 ≤ (setPlayerToHuman state false).aiMove
    ∧ (setPlayerToHuman state false).aiMove ≤ min 3 state.tokensLeft
    ∧ (setPlayerToHuman state false).canTake = (setPlayerToHuman state false).aiMove
    ∧ (¬ (4 ∣ state.tokensLeft) →
        4 ∣ (state.tokensLeft - (setPlayerToHuman state false).aiMove))
    ∧ (4 ∣ state.tokensLeft → (setPlayerToHuman state false).aiMove = 1) := by
  have hmod : Int.tmod state.tokensLeft 4 = state.tokensLeft % 4 :=
    Int.tmod_eq_emod (by omega) (by decide)
  have h4 : MAX_TAKEN + 1 = 4 := by decide
  simp only [setPlayerToHuman, hh, h4, hmod]
  simp only [Bool.false_eq_true, if_false, Bool.not_false, if_true]
  refine ⟨?_, ?_, trivial, ?_, ?_⟩
  · split <;> omega
  · split <;> omega
  · intro hnd; split <;> omega
  · intro hd; split <;> omega

/-- C18, with 10 tokens left (the AI takes 2 and leaves 8) and with 12 (it takes
1). -/
theorem ai_move_legal_witness :
    (setPlayerToHuman ⟨10, 1, 0, true, none⟩ false).aiMove = 2
    ∧ (setPlayerToHuman initialState false).aiMove = 1 := by
  obtain ⟨hlow, hhigh, _, hleave, _⟩ := ai_move_legal ⟨10, 1, 0, true, none⟩ rfl (by decide)
  have h12 := ai_move_legal initialState rfl (by decide)
  have hd := hleave (by decide)
  simp only [] at hhigh hd
  exact ⟨by omega, h12.2.2.2.2 (by decide)⟩

/-- C19: in progress with the human active, `aiMove = 0` and
`canTake = min(3, tokensLeft)`, dispatching `SET_PLAYER_TO_HUMAN false` and then
`SET_PLAYER_TO_HUMAN true` gives back the state, equal in every field. -/
theorem switch_round_trip (state : State) (hw : state.winner = none)
    (hh : state.playerIsHuman = true) (ha : state.aiMove = 0)
    (hc : state.canTake = min 3 state.tokensLeft) :
    (reducer state (Action.SET_PLAYER_TO_HUMAN false)).bind
        (fun s => reducer s (Action.SET_PLAYER_TO_HUMAN true))
      = some state := by
  obtain ⟨t, c, a, p, w⟩ := state
  simp only at hw hh ha hc
  subst hw hh ha hc
  simp [reducer, setPlayerToHuman, MAX_TAKEN]

/-- C19, at `initialState`. -/
theorem switch_round_trip_witness :
    (reducer initialState (Action.SET_PLAYER_TO_HUMAN false)).bind
        (fun s => reducer s (Action.SET_PLAYER_TO_HUMAN true))
      = some initialState :=
  switch_round_trip initialState rfl rfl rfl (by decide)

/-! ## The payload of `TAKE_TOKEN` -/

/-- C20: for every payload, the reducer gives the same result for `TAKE_TOKEN` on
two in-progress states that agree on `playerIsHuman` and `aiMove`, whatever their
`tokensLeft` and `canTake`; and when the payload has `canTake > 1` the result has
the payload's `tokensLeft - 1` and `canTake - 1`. -/
theorem take_token_payload_driven (payload : Payload) (s1 s2 : State)
    (hw1 : s1.winner = none) (hw2 : s2.winner = none)
    (hp : s1.playerIsHuman = s2.playerIsHuman) (ha : s1.aiMove = s2.aiMove) :
    reducer s1 (Action.TAKE_TOKEN (some payload)) = reducer s2 (Action.TAKE_TOKEN (some payload))
    ∧ (1 < payload.canTake →
        ∃ next, reducer s1 (Action.TAKE_TOKEN (some payload)) = some next
          ∧ next.tokensLeft = payload.tokensLeft - 1
          ∧ next.canTake = payload.canTake - 1) := by
  obtain ⟨t1, c1, a1, p1, w1⟩ := s1
  obtain ⟨t2, c2, a2, p2, w2⟩ := s2
  simp only at hw1 hw2 hp ha
  subst hw1 hw2 hp ha
  constructor
  · simp [reducer, takeToken, setPlayerToHuman]
  · intro hc
    have hne : payload.canTake - 1 ≠ 0 := by omega
    exact ⟨takeToken ⟨t1, c1, a1, p1, none⟩ payload, by simp [reducer],
      by simp [takeToken, hne], by simp [takeToken, hne]⟩

/-- C20, with a stale payload: at 5 tokens left, a payload that still says 12
gives the same result as at 9 tokens left, and raises `tokensLeft` to 11. -/
theorem take_token_payload_driven_witness :
    reducer ⟨5, 1, 0, true, none⟩ (Action.TAKE_TOKEN (some ⟨12, 3⟩))
      = reducer ⟨9, 2, 0, true, none⟩ (Action.TAKE_TOKEN (some ⟨12, 3⟩))
    ∧ reducer ⟨5, 1, 0, true, none⟩ (Action.TAKE_TOKEN (some ⟨12, 3⟩))
      = some ⟨11, 2, 0, true, none⟩
    ∧ (5 : Int) < 11 := by
  have h := take_token_payload_driven ⟨12, 3⟩ ⟨5, 1, 0, true, none⟩ ⟨9, 2, 0, true, none⟩
    rfl rfl rfl rfl
  exact ⟨h.1, by decide, by decide⟩

end GameReducer
